import Mathlib

/-!
Shallow embedding of the loss module (src/deepxml/libs/loss.py) and the sampling
module (src/programs/siamesexml/siamesexml/libs/sampling.py) of the siamesexml
repository, together with theorems settling the specification claims.

Tensors are modelled as lists of rows of rationals; boolean masks as lists of
rows of booleans. Reduction may return either a tensor or a scalar, matching
the dynamically-typed return of the Python code.
-/

/-- A matrix of rationals: a list of rows. -/
abbrev Mat : Type := List (List ℚ)

/-- A boolean mask matrix: a list of rows. -/
abbrev BMat : Type := List (List Bool)

/-- Elementwise combination of two matrices, truncating to the common shape
(the tensor library would instead require equal shapes; all theorems below
carry equal-shape hypotheses where it matters). -/
def zipMat {α β γ : Type} (f : α → β → γ) (a : List (List α)) (b : List (List β)) :
    List (List γ) :=
  List.zipWith (fun ra rb => List.zipWith f ra rb) a b

/-- Sum of all entries of a matrix (torch .sum() over all elements). -/
def matSum (m : Mat) : ℚ :=
  (m.map List.sum).sum

/-- Total number of entries of a matrix (torch .numel()). -/
def numel (m : Mat) : ℕ :=
  (m.map List.length).sum

/-- Result of a loss forward call: a full tensor when reduction is none,
otherwise a scalar. -/
inductive LossOutput where
  | tensor : Mat → LossOutput
  | scalar : ℚ → LossOutput
deriving DecidableEq

/-- Embedding of `_Loss._reduce` (loss.py lines 11-17): reduction "none"
returns the loss unchanged, "mean" returns loss.mean() which is the sum of all
entries divided by the total number of entries, and every other reduction
string falls through to loss.sum(). -/
def lossReduce (reduction : String) (loss : Mat) : LossOutput :=
  if reduction = "none" then LossOutput.tensor loss
  else if reduction = "mean" then LossOutput.scalar (matSum loss / (numel loss : ℚ))
  else LossOutput.scalar (matSum loss)

/-- Zero the entry at column p of a row whose first entry has column index j.
Helper for the column assignment in `_Loss._mask_at_pad`. -/
def zeroColFrom (p : ℕ) : ℕ → List ℚ → List ℚ
  | _, [] => []
  | j, x :: xs => (if j = p then 0 else x) :: zeroColFrom p (j + 1) xs

/-- Embedding of `_Loss._mask_at_pad` (loss.py lines 19-25): when a padding
index is configured, the column at that index is assigned zero in every row
(the statement loss[:, pad_ind] = 0.0); otherwise the loss is unchanged. -/
def maskAtPad (pad_ind : Option ℕ) (loss : Mat) : Mat :=
  match pad_ind with
  | none => loss
  | some p => loss.map (zeroColFrom p 0)

/-- Embedding of `_Loss._mask` (loss.py lines 27-36): when a mask is given,
entries where the mask is false are filled with zero
(loss.masked_fill applied to the negated mask); otherwise the loss is unchanged. -/
def applyMask (mask : Option BMat) (loss : Mat) : Mat :=
  match mask with
  | none => loss
  | some m => zipMat (fun x b => if b then x else 0) loss m

/-- Embedding of `_convert_labels_for_svm` (loss.py lines 39-43):
maps a 0/1 label y to 2*y - 1. -/
def convert_labels_for_svm (y : ℚ) : ℚ :=
  2 * y - 1

/-- F.relu on a scalar. -/
def relu (x : ℚ) : ℚ :=
  max 0 x

/-- The elementwise hinge loss computed at loss.py line 85:
relu(margin - convert_labels_for_svm(target) * input) at one position. -/
def hingeElem (margin x t : ℚ) : ℚ :=
  relu (margin - convert_labels_for_svm t * x)

/-- The unreduced, unmasked hinge loss matrix of loss.py line 85. -/
def hingeLossRaw (margin : ℚ) (input target : Mat) : Mat :=
  zipMat (fun x t => hingeElem margin x t) input target

/-- Embedding of `HingeLoss.forward` (loss.py lines 67-88): elementwise hinge
loss, then padding-column zeroing, then mask zeroing, then reduction. -/
def HingeLoss.forward (margin : ℚ) (reduction : String) (pad_ind : Option ℕ)
    (input target : Mat) (mask : Option BMat) : LossOutput :=
  lossReduce reduction (applyMask mask (maskAtPad pad_ind (hingeLossRaw margin input target)))

/-- The unreduced, unmasked squared hinge loss matrix of loss.py lines 131-132:
the hinge loss matrix with every entry squared (loss = loss**2). -/
def squaredHingeLossRaw (margin : ℚ) (input target : Mat) : Mat :=
  (zipMat (fun x t => hingeElem margin x t) input target).map
    (fun row => row.map (fun v => v ^ 2))

/-- Embedding of the positional-argument binding of `_Loss.__init__`
(loss.py lines 6-9), whose signature after self is (reduction, pad_ind), both
optional: zero, one or two positional arguments bind successfully, any longer
argument list raises TypeError. The value type is abstract since Python is
dynamically typed. -/
def lossBaseInitPos {α : Type} (default_reduction : α) (default_pad : Option α)
    (posArgs : List α) : Except String (α × Option α) :=
  match posArgs with
  | [] => Except.ok (default_reduction, default_pad)
  | [r] => Except.ok (r, default_pad)
  | [r, p] => Except.ok (r, some p)
  | _ => Except.error "TypeError: too many positional arguments for the base loss initializer"

/-- Embedding of `SquaredHingeLoss.__init__` (loss.py lines 108-110): it
forwards the three positional arguments size_average, reduce, reduction to the
base initializer, which accepts at most two. -/
def SquaredHingeLoss.init {α : Type} (default_reduction : α) (default_pad : Option α)
    (margin size_average reduce reduction : α) : Except String (α × (α × Option α)) :=
  (lossBaseInitPos default_reduction default_pad [size_average, reduce, reduction]).map
    (fun base => (margin, base))

/-- Default margin of `CosineEmbeddingLoss.__init__` (loss.py line 214): 0.8. -/
def CosineEmbeddingLoss.default_margin : ℚ :=
  8 / 10

/-- The elementwise cosine embedding loss of loss.py lines 236-238:
torch.where(target > 0, (1 - input) * pos_weight, max(0, input - margin))
at one position, with x the input entry and t the target entry. -/
def cosineEmbElem (margin pos_weight x t : ℚ) : ℚ :=
  if 0 < t then (1 - x) * pos_weight else max 0 (x - margin)

/-- Dot product of two rows. -/
def dot (u v : List ℚ) : ℚ :=
  (List.zipWith (fun a b => a * b) u v).sum

/-- A @ B.T for row-major matrices. -/
def matMulT (a b : Mat) : Mat :=
  a.map (fun ra => b.map (fun rb => dot ra rb))

/-- Index of the first maximum entry of a row, modelling
torch.topk(largest=True, k=1) along a row. -/
def rowArgmax : List ℚ → ℕ
  | [] => 0
  | x :: xs =>
    let j := rowArgmax xs
    if xs.getD j x ≤ x then 0 else j + 1

/-- The attribute names assigned on a TripletMarginLossOHNM instance by its
constructor chain: `_Loss.__init__` (loss.py lines 6-9) sets reduction and
pad_ind, and `TripletMarginLossOHNM.__init__` (loss.py lines 263-265) sets
margin. No other instance attribute is ever assigned; in particular _eps is
not among them, so the lookup self._eps at loss.py line 291 raises
AttributeError. -/
def TripletMarginLossOHNM.instance_attrs : List String :=
  ["reduction", "pad_ind", "margin"]

/-- Embedding of `TripletMarginLossOHNM.forward` (loss.py lines 267-301).
Lines 287-289 execute: the similarity matrix
min(doc_embeddings @ label_embeddings.T, 1 - selection), the per-row argmax,
and the gather of the hardest-negative label embeddings. Line 291 then
evaluates the attribute self._eps, which was never assigned (see
TripletMarginLossOHNM.instance_attrs), so every call fails with
AttributeError before any loss value is produced; the branch guarded by that
attribute existing is unreachable (and the remaining source lines would
further reference the unbound name margin and the missing attribute
self._reduction). -/
def TripletMarginLossOHNM.forward (margin : ℚ) (reduction : String)
    (doc_embeddings label_embeddings selection : Mat) : Except String ℚ :=
  let similarities := zipMat min (matMulT doc_embeddings label_embeddings)
      (selection.map (fun row => row.map (fun v => 1 - v)))
  let indices := similarities.map rowArgmax
  let negative_label_embeddings := indices.map (fun i => label_embeddings.getD i [])
  if TripletMarginLossOHNM.instance_attrs.contains "_eps" then
    Except.ok (margin * 0 + matSum negative_label_embeddings * 0)
  else
    Except.error "AttributeError: _eps"

/-- A sampler configuration as stored by `BaseSampler.__init__`
(sampling.py lines 21-27): size, num_samples, prob, replace. The index
member holds a closure over this configuration and is reconstructed by
_construct, so it is not part of the persisted interesting state. -/
structure BaseSampler where
  size : ℕ
  num_samples : ℕ
  prob : Option (List ℚ)
  replace : Bool
deriving DecidableEq

/-- Model of the external collaborator np.random.randint(low, high, size=n)
used by `BaseSampler._construct` (sampling.py line 33): n independent draws,
each an integer in [low, high). The randomness source rng is abstract; each
draw is reduced into the range by a modulus, faithful to the contract that
randint returns values in [low, high) whenever low < high. -/
def np_randint (rng : ℕ → ℕ) (low high n : ℕ) : List ℕ :=
  (List.range n).map (fun i => low + rng i % (high - low))

/-- Embedding of `BaseSampler._query` (sampling.py lines 35-38): one sample is
the pair of num_samples uniform indices from [0, size) and the weight list
[1.0] * num_samples. -/
def BaseSampler.sampleOnce (s : BaseSampler) (rng : ℕ → ℕ) : List ℕ × List ℚ :=
  (np_randint rng 0 s.size s.num_samples, List.replicate s.num_samples (1 : ℚ))

/-- Result of `BaseSampler.query`: a single pair when num_instances is 1,
otherwise a list of pairs. -/
inductive QueryResult where
  | single : List ℕ × List ℚ → QueryResult
  | several : List (List ℕ × List ℚ) → QueryResult

/-- Embedding of `BaseSampler.query` (sampling.py lines 40-47). The randomness
source is indexed by instance so that each repeated _query call draws fresh
randomness. -/
def BaseSampler.query (s : BaseSampler) (rng : ℕ → ℕ → ℕ) (num_instances : ℕ) : QueryResult :=
  if num_instances = 1 then QueryResult.single (s.sampleOnce (rng 0))
  else QueryResult.several ((List.range num_instances).map (fun i => s.sampleOnce (rng i)))

/-- Embedding of `BaseSampler.save` (sampling.py lines 49-54): the file store
is a map from file names to pickled sampler states, and save writes the
state of this sampler under fname. -/
def BaseSampler.save (s : BaseSampler) (store : String → Option BaseSampler)
    (fname : String) : String → Option BaseSampler :=
  fun f => if f = fname then some s else store f

/-- Embedding of `BaseSampler.load` (sampling.py lines 56-59). The statement
self = pickle.load(open(fname)) unpickles the stored object and binds it to
the LOCAL name self, which has no effect on the object the method was called
on: after a successful load, the sampler is returned unchanged. Opening a
missing file raises. -/
def BaseSampler.load (s : BaseSampler) (store : String → Option BaseSampler)
    (fname : String) : Except String BaseSampler :=
  match store fname with
  | none => Except.error "FileNotFoundError"
  | some _ => Except.ok s

/-- The mean reduction as claim C2 and the spec describe it, written from the
words of the spec for comparison with lossReduce: the sum of the entries that
survive masking, divided by the number of unmasked, non-pad entries. -/
def rowSurvivorCount (pad_ind : Option ℕ) : ℕ → List Bool → ℕ
  | _, [] => 0
  | j, b :: bs =>
      (if b ∧ pad_ind ≠ some j then 1 else 0) + rowSurvivorCount pad_ind (j + 1) bs

/-- Number of unmasked, non-pad positions of a mask matrix. -/
def survivorCount (pad_ind : Option ℕ) (mask : BMat) : ℕ :=
  (mask.map (rowSurvivorCount pad_ind 0)).sum

/-- Claimed mean (spec side, for claim C2): masked sum divided by the count of
unmasked, non-pad entries. -/
def claimedMaskedMean (pad_ind : Option ℕ) (loss : Mat) (mask : BMat) : ℚ :=
  matSum (applyMask (some mask) (maskAtPad pad_ind loss)) / (survivorCount pad_ind mask : ℚ)

/-- Entry (i, j) of a rational matrix, with default 0 out of range. -/
def entry (m : Mat) (i j : ℕ) : ℚ :=
  (m.getD i []).getD j 0

/-- Entry (i, j) of a boolean mask, with default true out of range. -/
def mentry (m : BMat) (i j : ℕ) : Bool :=
  (m.getD i []).getD j true

/-! ### Helper lemmas -/

theorem getD_zipWith {α β γ : Type} (f : α → β → γ) (dc : γ) (da : α) (db : β)
    (as : List α) (bs : List β) (i : ℕ) (ha : i < as.length) (hb : i < bs.length) :
    (List.zipWith f as bs).getD i dc = f (as.getD i da) (bs.getD i db) := by
  induction as generalizing bs i with
  | nil => simp at ha
  | cons a as ih =>
    cases bs with
    | nil => simp at hb
    | cons b bs =>
      cases i with
      | zero => rfl
      | succ n =>
        simpa using ih bs n (by simpa using ha) (by simpa using hb)

theorem getD_map_in {α β : Type} (f : α → β) (da : α) (db : β)
    (l : List α) (i : ℕ) (h : i < l.length) :
    (l.map f).getD i db = f (l.getD i da) := by
  induction l generalizing i with
  | nil => simp at h
  | cons x xs ih =>
    cases i with
    | zero => rfl
    | succ n => simpa using ih n (by simpa using h)

theorem length_zeroColFrom (p j : ℕ) (row : List ℚ) :
    (zeroColFrom p j row).length = row.length := by
  induction row generalizing j with
  | nil => rfl
  | cons x xs ih => simpa [zeroColFrom] using ih (j + 1)

theorem getD_zeroColFrom (p j0 : ℕ) (row : List ℚ) (i : ℕ) (h : i < row.length) :
    (zeroColFrom p j0 row).getD i 0 = if j0 + i = p then 0 else row.getD i 0 := by
  induction row generalizing j0 i with
  | nil => simp at h
  | cons x xs ih =>
    cases i with
    | zero => simp [zeroColFrom]
    | succ n =>
      have := ih (j0 + 1) n (by simpa using h)
      simpa [zeroColFrom, Nat.add_assoc, Nat.add_comm 1 n] using this

theorem length_maskAtPad (pad_ind : Option ℕ) (loss : Mat) :
    (maskAtPad pad_ind loss).length = loss.length := by
  cases pad_ind with
  | none => rfl
  | some p => simp [maskAtPad]

theorem rowlen_maskAtPad (pad_ind : Option ℕ) (loss : Mat) (i : ℕ) :
    ((maskAtPad pad_ind loss).getD i []).length = ((loss.getD i []).length) := by
  cases pad_ind with
  | none => rfl
  | some p =>
    by_cases h : i < loss.length
    · rw [maskAtPad, getD_map_in (zeroColFrom p 0) [] [] loss i h, length_zeroColFrom]
    · rw [maskAtPad, List.getD_eq_default, List.getD_eq_default]
      · exact Nat.le_of_not_lt h
      · simpa using Nat.le_of_not_lt h

theorem entry_maskAtPad_some (p : ℕ) (loss : Mat) (i j : ℕ)
    (hi : i < loss.length) :
    entry (maskAtPad (some p) loss) i j = if j = p then 0 else entry loss i j := by
  by_cases hj : j < (loss.getD i []).length
  · rw [entry, maskAtPad, getD_map_in (zeroColFrom p 0) [] [] loss i hi,
      getD_zeroColFrom p 0 _ j hj]
    simp [entry]
  · rw [entry, maskAtPad, getD_map_in (zeroColFrom p 0) [] [] loss i hi,
      List.getD_eq_default, entry, List.getD_eq_default]
    · simp
    · exact Nat.le_of_not_lt hj
    · rw [length_zeroColFrom]
      exact Nat.le_of_not_lt hj

theorem entry_applyMask_some (loss : Mat) (mask : BMat) (i j : ℕ)
    (hiL : i < loss.length) (hiM : i < mask.length)
    (hjL : j < (loss.getD i []).length) (hjM : j < (mask.getD i []).length) :
    entry (applyMask (some mask) loss) i j
      = if mentry mask i j then entry loss i j else 0 := by
  rw [entry, applyMask, zipMat,
    getD_zipWith (fun ra rb => List.zipWith (fun x b => if b then x else 0) ra rb)
      [] [] [] loss mask i hiL hiM,
    getD_zipWith (fun x b => if b then x else 0) 0 0 true _ _ j hjL hjM]
  rfl

theorem entry_hingeLossRaw (margin : ℚ) (input target : Mat) (i j : ℕ)
    (hiI : i < input.length) (hiT : i < target.length)
    (hjI : j < (input.getD i []).length) (hjT : j < (target.getD i []).length) :
    entry (hingeLossRaw margin input target) i j
      = hingeElem margin (entry input i j) (entry target i j) := by
  rw [entry, hingeLossRaw, zipMat,
    getD_zipWith (fun ra rb => List.zipWith (fun x t => hingeElem margin x t) ra rb)
      [] [] [] input target i hiI hiT,
    getD_zipWith (fun x t => hingeElem margin x t) 0 0 0 _ _ j hjI hjT]
  rfl

theorem numel_zipMat_of_forall₂ {β : Type} (f : ℚ → β → ℚ)
    (a : Mat) (b : List (List β))
    (h : List.Forall₂ (fun (r : List ℚ) (s : List β) => r.length = s.length) a b) :
    numel (zipMat f a b) = numel a := by
  induction h with
  | nil => rfl
  | cons hrow _ ih =>
    simp only [zipMat, List.zipWith_cons_cons, numel, List.map_cons, List.sum_cons] at *
    rw [List.length_zipWith, hrow, Nat.min_self, ih]

theorem forall₂_len_maskAtPad (pad_ind : Option ℕ) (loss : Mat) (mask : BMat)
    (h : List.Forall₂ (fun (r : List ℚ) (s : List Bool) => r.length = s.length) loss mask) :
    List.Forall₂ (fun (r : List ℚ) (s : List Bool) => r.length = s.length)
      (maskAtPad pad_ind loss) mask := by
  cases pad_ind with
  | none => exact h
  | some p =>
    rw [maskAtPad]
    induction h with
    | nil => simp
    | cons hrow htail ih =>
      simp only [List.map_cons]
      exact List.Forall₂.cons (by rw [length_zeroColFrom]; exact hrow) ih

theorem numel_maskAtPad (pad_ind : Option ℕ) (loss : Mat) :
    numel (maskAtPad pad_ind loss) = numel loss := by
  cases pad_ind with
  | none => rfl
  | some p =>
    rw [maskAtPad]
    induction loss with
    | nil => rfl
    | cons r l ih =>
      simp only [List.map_cons, numel, List.sum_cons] at *
      rw [length_zeroColFrom, ih]

theorem getD_row_map_sq (m : Mat) (i : ℕ) :
    (m.map (fun row => row.map (fun v => v ^ 2))).getD i []
      = (m.getD i []).map (fun v => v ^ 2) := by
  by_cases h : i < m.length
  · exact getD_map_in _ [] [] m i h
  · have h1 : (m.map (fun row => row.map (fun v => v ^ 2))).length ≤ i := by
      simpa using Nat.le_of_not_lt h
    rw [List.getD_eq_default _ _ h1, List.getD_eq_default _ _ (Nat.le_of_not_lt h)]
    rfl

theorem getD_map_sq (row : List ℚ) (j : ℕ) :
    (row.map (fun v => v ^ 2)).getD j 0 = (row.getD j 0) ^ 2 := by
  induction row generalizing j with
  | nil => simp
  | cons x xs ih =>
    cases j with
    | zero => rfl
    | succ n => simpa using ih n

/-! ### Claim theorems -/

/-- Claim C1: the claim says TripletMarginLossOHNM.forward computes the OHNM
triplet loss (hardest negative by argmax of min(S, 1 - selection), per-document
loss max(0, sim_n - sim_p + margin), reduced per the configured reduction). The
code cannot produce any such value: the body reads the attribute self._eps,
which no constructor ever assigns, so every call fails with AttributeError
before a loss is computed. This theorem evaluates the embedded forward at a
concrete input and obtains the error. -/
theorem triplet_forward_attribute_error :
    TripletMarginLossOHNM.forward (8 / 10) "mean" [[1]] [[1]] [[0]]
      = Except.error "AttributeError: _eps" := by
  rfl

/-- Claim C3: the claim says save followed by load restores the saved
configuration onto the loaded object. The code of load binds the unpickled
object to the local name self only, leaving the object unchanged: after
saving a sampler of size 10 and loading on a sampler of size 3, the latter
still has size 3. This theorem evaluates the embedded save and load at that
failing input. -/
theorem sampler_load_leaves_object_unchanged :
    BaseSampler.load { size := 3, num_samples := 2, prob := none, replace := true }
        (BaseSampler.save { size := 10, num_samples := 5, prob := none, replace := true }
          (fun _ => none) "file.pkl") "file.pkl"
      = Except.ok { size := 3, num_samples := 2, prob := none, replace := true }
  ∧ BaseSampler.size { size := 3, num_samples := 2, prob := none, replace := true }
      ≠ BaseSampler.size { size := 10, num_samples := 5, prob := none, replace := true } := by
  constructor
  · rfl
  · decide

/-- Claim C4: the elementwise (unreduced, unmasked) squared hinge loss equals
the elementwise hinge loss squared, at every position of every input and
target matrix and every margin. -/
theorem squared_hinge_equals_hinge_squared (margin : ℚ) (input target : Mat) (i j : ℕ) :
    entry (squaredHingeLossRaw margin input target) i j
      = (entry (hingeLossRaw margin input target) i j) ^ 2 := by
  show entry ((hingeLossRaw margin input target).map (fun row => row.map (fun v => v ^ 2))) i j = _
  rw [entry, getD_row_map_sq, getD_map_sq]
  rfl

/-- Claim C5: SquaredHingeLoss.__init__ forwards the three positional
arguments (size_average, reduce, reduction) to the base initializer, whose
signature accepts at most two positional arguments after self, so construction
raises TypeError for every argument combination and no instance can be
created. -/
theorem squared_hinge_init_raises (α : Type) (default_reduction : α) (default_pad : Option α)
    (margin size_average reduce reduction : α) :
    SquaredHingeLoss.init default_reduction default_pad margin size_average reduce reduction
      = Except.error "TypeError: too many positional arguments for the base loss initializer" :=
  rfl

/-- Claim C7: for every reduction string other than "none" and "mean", the
shared reduction step returns the sum of the loss entries, without raising. -/
theorem reduce_fallthrough_to_sum (reduction : String) (loss : Mat)
    (h1 : reduction ≠ "none") (h2 : reduction ≠ "mean") :
    lossReduce reduction loss = LossOutput.scalar (matSum loss) := by
  simp only [lossReduce, if_neg h1, if_neg h2]

/-- Witness for claim C7 at the concrete reduction string "sum". -/
theorem reduce_fallthrough_to_sum_witness :
    lossReduce "sum" [[1, 2]] = LossOutput.scalar (matSum [[1, 2]]) :=
  reduce_fallthrough_to_sum "sum" [[1, 2]] (by decide) (by decide)

/-- Claim C9: the elementwise hinge loss equals
max(0, margin - (2*target - 1)*input) at every in-range position, and is
nonnegative there. -/
theorem hinge_loss_elementwise_formula (margin : ℚ) (input target : Mat) (i j : ℕ)
    (hiI : i < input.length) (hiT : i < target.length)
    (hjI : j < (input.getD i []).length) (hjT : j < (target.getD i []).length) :
    entry (hingeLossRaw margin input target) i j
      = max 0 (margin - (2 * entry target i j - 1) * entry input i j)
  ∧ 0 ≤ entry (hingeLossRaw margin input target) i j := by
  have h := entry_hingeLossRaw margin input target i j hiI hiT hjI hjT
  constructor
  · rw [h]
    rfl
  · rw [h]
    exact le_max_left 0 _

/-- Witness for claim C9 at a concrete in-range position. -/
theorem hinge_loss_elementwise_formula_witness :
    entry (hingeLossRaw 1 [[2]] [[1]]) 0 0
      = max 0 (1 - (2 * entry [[1]] 0 0 - 1) * entry [[2]] 0 0)
  ∧ 0 ≤ entry (hingeLossRaw 1 [[2]] [[1]]) 0 0 :=
  hinge_loss_elementwise_formula 1 [[2]] [[1]] 0 0 (by decide) (by decide) (by decide) (by decide)

/-- Claim C8: the elementwise cosine embedding loss is pos_weight * (1 - input)
at positions with positive target and max(0, input - margin) at positions with
target zero; the default margin is 0.8; it vanishes at target 1 with input 1,
and at target 0 with input at most the margin. -/
theorem cosine_embedding_elementwise :
    CosineEmbeddingLoss.default_margin = 4 / 5
  ∧ (∀ m w x t : ℚ, 0 < t → cosineEmbElem m w x t = w * (1 - x))
  ∧ (∀ m w x : ℚ, cosineEmbElem m w x 0 = max 0 (x - m))
  ∧ (∀ m w : ℚ, cosineEmbElem m w 1 1 = 0)
  ∧ (∀ m w x : ℚ, x ≤ m → cosineEmbElem m w x 0 = 0) := by
  refine ⟨by norm_num [CosineEmbeddingLoss.default_margin], ?_, ?_, ?_, ?_⟩
  · intro m w x t ht
    rw [cosineEmbElem, if_pos ht, mul_comm]
  · intro m w x
    rw [cosineEmbElem, if_neg (lt_irrefl 0)]
  · intro m w
    norm_num [cosineEmbElem]
  · intro m w x hx
    rw [cosineEmbElem, if_neg (lt_irrefl 0)]
    exact max_eq_left (sub_nonpos.mpr hx)

/-- Witness for claim C8, discharging the positive-target and
input-below-margin hypotheses at concrete values. -/
theorem cosine_embedding_elementwise_witness :
    cosineEmbElem (4 / 5) 2 (1 / 2) 1 = 2 * (1 - 1 / 2)
  ∧ cosineEmbElem (4 / 5) 2 (1 / 2) 0 = 0 :=
  ⟨cosine_embedding_elementwise.2.1 (4 / 5) 2 (1 / 2) 1 (by norm_num),
   cosine_embedding_elementwise.2.2.2.2 (4 / 5) 2 (1 / 2) (by norm_num)⟩

/-- Claim C6 (for the representative HingeLoss, which uses the shared _mask
and _mask_at_pad primitives): with reduction "none", a pad index and a mask,
the output is the elementwise loss with the pad column zeroed and the
masked-off entries zeroed; positions with mask false are 0, positions in the
pad column are 0 regardless of the mask, and all other positions carry the
unchanged elementwise hinge loss. -/
theorem hinge_forward_none_masking (margin : ℚ) (p : ℕ) (input target : Mat)
    (mask : BMat) (i j : ℕ)
    (hiI : i < input.length) (hT : target.length = input.length)
    (hM : mask.length = input.length)
    (hjI : j < (input.getD i []).length)
    (hrT : (target.getD i []).length = (input.getD i []).length)
    (hrM : (mask.getD i []).length = (input.getD i []).length) :
    HingeLoss.forward margin "none" (some p) input target (some mask)
        = LossOutput.tensor
            (applyMask (some mask) (maskAtPad (some p) (hingeLossRaw margin input target)))
  ∧ (mentry mask i j = false →
      entry (applyMask (some mask) (maskAtPad (some p) (hingeLossRaw margin input target))) i j
        = 0)
  ∧ (j = p →
      entry (applyMask (some mask) (maskAtPad (some p) (hingeLossRaw margin input target))) i j
        = 0)
  ∧ (mentry mask i j = true → j ≠ p →
      entry (applyMask (some mask) (maskAtPad (some p) (hingeLossRaw margin input target))) i j
        = hingeElem margin (entry input i j) (entry target i j)) := by
  have hiT : i < target.length := by rw [hT]; exact hiI
  have hjT : j < (target.getD i []).length := by rw [hrT]; exact hjI
  have hjM : j < (mask.getD i []).length := by rw [hrM]; exact hjI
  have hrawlen : (hingeLossRaw margin input target).length = input.length := by
    simp [hingeLossRaw, zipMat, List.length_zipWith, hT]
  have hiRaw : i < (hingeLossRaw margin input target).length := by
    rw [hrawlen]; exact hiI
  have hrowraw : ((hingeLossRaw margin input target).getD i []).length
      = (input.getD i []).length := by
    rw [hingeLossRaw, zipMat,
      getD_zipWith (fun ra rb => List.zipWith (fun x t => hingeElem margin x t) ra rb)
        [] [] [] input target i hiI hiT,
      List.length_zipWith, hrT, Nat.min_self]
  have hiPad : i < (maskAtPad (some p) (hingeLossRaw margin input target)).length := by
    rw [length_maskAtPad, hrawlen]; exact hiI
  have hiM : i < mask.length := by rw [hM]; exact hiI
  have hjPad : j < ((maskAtPad (some p) (hingeLossRaw margin input target)).getD i []).length := by
    rw [rowlen_maskAtPad, hrowraw]; exact hjI
  have hmaskentry := entry_applyMask_some
    (maskAtPad (some p) (hingeLossRaw margin input target)) mask i j hiPad hiM hjPad hjM
  have hpad := entry_maskAtPad_some p (hingeLossRaw margin input target) i j hiRaw
  have hraw := entry_hingeLossRaw margin input target i j hiI hiT hjI hjT
  refine ⟨rfl, ?_, ?_, ?_⟩
  · intro hm
    rw [hmaskentry, hm]
    simp
  · intro hj
    rw [hmaskentry, hpad, if_pos hj]
    exact ite_self 0
  · intro hm hj
    rw [hmaskentry, hm, if_pos rfl, hpad, if_neg hj, hraw]

/-- Witness for claim C6 at a concrete input, pad index and mask. -/
theorem hinge_forward_none_masking_witness :
    HingeLoss.forward 1 "none" (some 0) [[2]] [[1]] (some [[true]])
        = LossOutput.tensor
            (applyMask (some [[true]]) (maskAtPad (some 0) (hingeLossRaw 1 [[2]] [[1]])))
  ∧ (mentry [[true]] 0 0 = false →
      entry (applyMask (some [[true]]) (maskAtPad (some 0) (hingeLossRaw 1 [[2]] [[1]]))) 0 0
        = 0)
  ∧ ((0 : ℕ) = 0 →
      entry (applyMask (some [[true]]) (maskAtPad (some 0) (hingeLossRaw 1 [[2]] [[1]]))) 0 0
        = 0)
  ∧ (mentry [[true]] 0 0 = true → (0 : ℕ) ≠ 0 →
      entry (applyMask (some [[true]]) (maskAtPad (some 0) (hingeLossRaw 1 [[2]] [[1]]))) 0 0
        = hingeElem 1 (entry [[2]] 0 0) (entry [[1]] 0 0)) :=
  hinge_forward_none_masking 1 0 [[2]] [[1]] [[true]] 0 0
    (by decide) (by decide) (by decide) (by decide) (by decide) (by decide)

/-- Claim C2 (corrected): with reduction "mean", the shared reduction step
divides the masked sum by the TOTAL number of entries of the loss matrix, not
by the number of unmasked, non-pad entries. This theorem proves the amended
statement, for any loss matrix, mask of matching shape and pad index. -/
theorem mean_divides_by_total_numel (loss : Mat) (mask : BMat) (pad_ind : Option ℕ)
    (hshape : List.Forall₂ (fun (r : List ℚ) (s : List Bool) => r.length = s.length) loss mask) :
    lossReduce "mean" (applyMask (some mask) (maskAtPad pad_ind loss))
      = LossOutput.scalar
          (matSum (applyMask (some mask) (maskAtPad pad_ind loss)) / (numel loss : ℚ)) := by
  have h1 : numel (applyMask (some mask) (maskAtPad pad_ind loss)) = numel loss := by
    rw [applyMask,
      numel_zipMat_of_forall₂ _ _ _ (forall₂_len_maskAtPad pad_ind loss mask hshape),
      numel_maskAtPad]
  simp only [lossReduce, if_neg (show ¬("mean" = "none") by decide), if_pos rfl, if_true, h1]

/-- Witness for the amended claim C2 at a concrete loss matrix and mask. -/
theorem mean_divides_by_total_numel_witness :
    lossReduce "mean" (applyMask (some [[true, false]]) (maskAtPad none [[2, 4]]))
      = LossOutput.scalar
          (matSum (applyMask (some [[true, false]]) (maskAtPad none [[2, 4]]))
            / (numel [[2, 4]] : ℚ)) :=
  mean_divides_by_total_numel [[2, 4]] [[true, false]] none
    (List.Forall₂.cons (by decide) List.Forall₂.nil)

/-- Counterexample to claim C2 as stated: for the loss matrix [[2, 4]] with
mask [[true, false]] and no pad index, the code returns mean 1 (masked sum 2
divided by the 2 total entries) while the claimed mean is 2 (masked sum 2
divided by the 1 surviving entry). -/
theorem mean_reduction_counterexample :
    lossReduce "mean" (applyMask (some [[true, false]]) (maskAtPad none [[2, 4]]))
      = LossOutput.scalar 1
  ∧ claimedMaskedMean none [[2, 4]] [[true, false]] = 2
  ∧ (1 : ℚ) ≠ 2 := by
  have e1 : applyMask (some [[true, false]]) (maskAtPad none [[2, 4]]) = [[2, 0]] := rfl
  have e2 : survivorCount none [[true, false]] = 1 := rfl
  refine ⟨?_, ?_, by norm_num⟩
  · rw [e1]
    simp only [lossReduce, if_neg (show ¬("mean" = "none") by decide), if_pos rfl, if_true,
      LossOutput.scalar.injEq]
    norm_num [matSum, numel]
  · simp only [claimedMaskedMean]
    rw [e1, e2]
    norm_num [matSum]

/-- Claim C10: for a BaseSampler with positive size, query(1) returns a single
pair whose index list has exactly num_samples entries, all in [0, size), and
whose weight list is num_samples copies of 1.0. -/
theorem base_sampler_query_one (size num_samples : ℕ) (prob : Option (List ℚ))
    (replace : Bool) (rng : ℕ → ℕ → ℕ) (h : 0 < size) :
    BaseSampler.query ⟨size, num_samples, prob, replace⟩ rng 1
        = QueryResult.single (BaseSampler.sampleOnce ⟨size, num_samples, prob, replace⟩ (rng 0))
  ∧ (BaseSampler.sampleOnce ⟨size, num_samples, prob, replace⟩ (rng 0)).1.length = num_samples
  ∧ (∀ x ∈ (BaseSampler.sampleOnce ⟨size, num_samples, prob, replace⟩ (rng 0)).1, x < size)
  ∧ (BaseSampler.sampleOnce ⟨size, num_samples, prob, replace⟩ (rng 0)).2
      = List.replicate num_samples (1 : ℚ) := by
  refine ⟨rfl, ?_, ?_, rfl⟩
  · simp [BaseSampler.sampleOnce, np_randint]
  · intro x hx
    simp only [BaseSampler.sampleOnce, np_randint, List.mem_map, List.mem_range] at hx
    obtain ⟨i, _, hi⟩ := hx
    rw [← hi]
    simpa using Nat.mod_lt (rng 0 i) h

/-- Witness for claim C10 at size 10, num_samples 5, and a concrete
randomness source. -/
theorem base_sampler_query_one_witness :
    BaseSampler.query ⟨10, 5, none, true⟩ (fun _ k => k) 1
        = QueryResult.single (BaseSampler.sampleOnce ⟨10, 5, none, true⟩ ((fun _ k => k) 0))
  ∧ (BaseSampler.sampleOnce ⟨10, 5, none, true⟩ ((fun _ k => k) 0)).1.length = 5
  ∧ (∀ x ∈ (BaseSampler.sampleOnce ⟨10, 5, none, true⟩ ((fun _ k => k) 0)).1, x < 10)
  ∧ (BaseSampler.sampleOnce ⟨10, 5, none, true⟩ ((fun _ k => k) 0)).2
      = List.replicate 5 (1 : ℚ) :=
  base_sampler_query_one 10 5 none true (fun _ k => k) (by decide)
